import Mathlib

set_option maxHeartbeats 1000000

/-!
A shallow embedding of the order-management logic implemented in
components/pages/Orders.tsx: the stock resolver, the order line
aggregator, quantity clamping, the balance reconciliation handlers, the
hold/unhold transitions on a viewed order, order creation, and the
delivery finalization workflow.  Quantities and stock levels are
naturals; monetary amounts and discount percentages are rationals.
-/

inductive UserRole
  | Admin
  | Manager
  | Sales
  | Driver
deriving DecidableEq, Repr

inductive OrderStatus
  | Pending
  | Shipped
  | Delivered
  | Cancelled
deriving DecidableEq, Repr

structure Product where
  id : String
  name : String
  price : ℚ
  stock : ℕ
deriving DecidableEq, Repr

structure OrderItem where
  productId : String
  quantity : ℕ
  price : ℚ
  discount : Option ℚ
deriving DecidableEq, Repr

structure AllocatedItem where
  productId : String
  quantity : ℕ
deriving DecidableEq, Repr

structure DriverAllocation where
  id : String
  driverId : String
  date : String
  allocatedItems : List AllocatedItem
  salesTotal : ℕ
deriving DecidableEq, Repr

structure Order where
  id : String
  customerId : String
  status : OrderStatus
  total : ℚ
  orderItems : List OrderItem
  backorderedItems : List OrderItem
  chequeBalance : ℚ
  creditBalance : ℚ
  sold : ℕ
deriving DecidableEq, Repr

structure Customer where
  id : String
  totalSpent : ℚ
  outstandingBalance : ℚ
deriving DecidableEq, Repr

/-- The acting user and calendar date against which stock is resolved
(currentUser.role, currentUser.id and the current date in Orders.tsx). -/
structure StockCtx where
  role : UserRole
  userId : String
  today : String
deriving DecidableEq, Repr

/-- Embeds getDriverAllocatedStock: a non-driver has no allocated stock;
a driver looks up the allocation for (their own id, today) and within it
the entry for the product, defaulting to 0 at each missing step. -/
def getDriverAllocatedStock (ctx : StockCtx) (allocations : List DriverAllocation)
    (productId : String) : ℕ :=
  if ctx.role ≠ UserRole.Driver then 0
  else
    match allocations.find? (fun a => a.driverId == ctx.userId && a.date == ctx.today) with
    | none => 0
    | some driverAllocation =>
      match driverAllocation.allocatedItems.find? (fun item => item.productId == productId) with
      | none => 0
      | some allocatedItem => allocatedItem.quantity

/-- Embeds getEffectiveStock: drivers see their allocated stock, everyone
else sees the product's warehouse stock. -/
def getEffectiveStock (ctx : StockCtx) (allocations : List DriverAllocation)
    (product : Product) : ℕ :=
  if ctx.role = UserRole.Driver then getDriverAllocatedStock ctx allocations product.id
  else product.stock

/-- Effective stock looked up by product id; an id absent from the catalog
resolves to 0 (the code paths that consult stock for an unknown product
treat it as unavailable). -/
def effectiveStockOfId (ctx : StockCtx) (allocations : List DriverAllocation)
    (products : List Product) (productId : String) : ℕ :=
  match products.find? (fun p => p.id == productId) with
  | none => 0
  | some p => getEffectiveStock ctx allocations p

/-- Result of the total/inStockItems/heldItemsCount useMemo. -/
structure AggResult where
  total : ℚ
  inStockItems : ℕ
  heldItemsCount : ℕ
deriving DecidableEq, Repr

/-- The state the aggregator useMemo closes over: stock context,
allocations, catalog, per-line price and discount overrides, held set. -/
structure AggEnv where
  ctx : StockCtx
  allocations : List DriverAllocation
  products : List Product
  orderItemPrices : List (String × ℚ)
  orderDiscounts : List (String × ℚ)
  heldItems : List String
deriving DecidableEq, Repr

/-- Record lookup (orderItemPrices[pid] / orderDiscounts[pid]). -/
def lookupQ (m : List (String × ℚ)) (key : String) : Option ℚ :=
  (m.find? (fun e => e.1 == key)).map (fun e => e.2)

/-- One step of the reduce in the total/inStockItems/heldItemsCount
useMemo (Orders.tsx lines 527-549). -/
def aggStep (env : AggEnv) (acc : AggResult) (pq : String × ℕ) : AggResult :=
  match env.products.find? (fun p => p.id == pq.1) with
  | none => acc
  | some product =>
    if 0 < pq.2 then
      if pq.1 ∈ env.heldItems ∨ getEffectiveStock env.ctx env.allocations product = 0 then
        { acc with heldItemsCount := acc.heldItemsCount + pq.2 }
      else
        { acc with
            total := acc.total +
              ((lookupQ env.orderItemPrices pq.1).getD product.price) *
                (1 - ((lookupQ env.orderDiscounts pq.1).getD 0) / 100) * pq.2,
            inStockItems := acc.inStockItems + pq.2 }
    else acc

/-- Embeds the order line aggregator useMemo: folds the entries of the
orderItems record into total, inStockItems and heldItemsCount. -/
def lineAggregate (env : AggEnv) (orderItems : List (String × ℕ)) : AggResult :=
  orderItems.foldl (aggStep env) ⟨0, 0, 0⟩

/-- A line that contributes to total and inStockItems: positive quantity,
not held, and nonzero effective stock. -/
def ActiveLine (env : AggEnv) (pq : String × ℕ) : Prop :=
  0 < pq.2 ∧ pq.1 ∉ env.heldItems ∧
    effectiveStockOfId env.ctx env.allocations env.products pq.1 ≠ 0

/-- A line that contributes only to heldItemsCount: positive quantity and
either held or effectively out of stock. -/
def HeldLine (env : AggEnv) (pq : String × ℕ) : Prop :=
  0 < pq.2 ∧ (pq.1 ∈ env.heldItems ∨
    effectiveStockOfId env.ctx env.allocations env.products pq.1 = 0)

instance (env : AggEnv) (pq : String × ℕ) : Decidable (ActiveLine env pq) := by
  unfold ActiveLine; exact inferInstance

instance (env : AggEnv) (pq : String × ℕ) : Decidable (HeldLine env pq) := by
  unfold HeldLine; exact inferInstance

/-- Catalog price of a product id (fallback when no per-line override). -/
def catalogPrice (products : List Product) (productId : String) : ℚ :=
  match products.find? (fun p => p.id == productId) with
  | none => 0
  | some p => p.price

/-- Monetary value of one active line, written as the specification does:
price x quantity x (1 - discount/100). -/
def aggLineValue (env : AggEnv) (pq : String × ℕ) : ℚ :=
  ((lookupQ env.orderItemPrices pq.1).getD (catalogPrice env.products pq.1)) *
    pq.2 * (1 - ((lookupQ env.orderDiscounts pq.1).getD 0) / 100)

/-- Embeds the chequeBalance input onChange handler (Orders.tsx lines
1708-1720).  The stored field values are Option-valued: none models the
cleared ('') field.  Returns the new (editableChequeBalance,
editableCreditBalance) pair. -/
def onChequeBalanceChange (total : ℚ) (editableAmountPaid : Option ℚ)
    (val : Option ℚ) : Option ℚ × Option ℚ :=
  match val with
  | none =>
    (none, match editableAmountPaid with
           | none => none
           | some paid => some (total - paid))
  | some cheque =>
    let newCredit := total - (match editableAmountPaid with
                              | none => 0
                              | some paid => paid) - cheque
    (some cheque, some (if 0 < newCredit then newCredit else 0))

/-- Embeds the amountPaid input onChange handler (Orders.tsx lines
1736-1748).  Returns the new (editableAmountPaid, editableCreditBalance)
pair. -/
def onAmountPaidChange (total : ℚ) (editableChequeBalance : Option ℚ)
    (val : Option ℚ) : Option ℚ × Option ℚ :=
  match val with
  | none =>
    (none, match editableChequeBalance with
           | none => none
           | some cheque => some (total - cheque))
  | some paid =>
    let newCredit := total - paid - (match editableChequeBalance with
                                     | none => 0
                                     | some cheque => cheque)
    (some paid, some (if 0 < newCredit then newCredit else 0))

/-- Embeds handleQuantityChange (Orders.tsx lines 495-503): none when the
product id is unknown (the handler stores nothing); otherwise the stored
quantity.  maxQuantity none models Infinity. -/
def handleQuantityChange (ctx : StockCtx) (allocations : List DriverAllocation)
    (products : List Product) (heldItems : List String)
    (productId : String) (quantity : ℤ) : Option ℤ :=
  match products.find? (fun p => p.id == productId) with
  | none => none
  | some product =>
    let isHeld := productId ∈ heldItems
    let maxQuantity : Option ℤ :=
      if 0 < getEffectiveStock ctx allocations product ∧ ¬ isHeld then
        some (getEffectiveStock ctx allocations product)
      else none
    some (max 0 (match maxQuantity with
                 | some m => min quantity m
                 | none => quantity))

/-- Removes the first list element satisfying p, returning it and the rest
(findIndex followed by splice in handleToggleHoldInView). -/
def extractFirst (p : OrderItem → Bool) : List OrderItem → Option (OrderItem × List OrderItem)
  | [] => none
  | x :: xs =>
    if p x then some (x, xs)
    else
      match extractFirst p xs with
      | none => none
      | some (y, ys) => some (y, x :: ys)

/-- One line's subtotal: price x quantity x (1 - discount/100), a missing
discount counting as 0 (Orders.tsx lines 735-736). -/
def lineSubtotal (item : OrderItem) : ℚ :=
  item.price * (item.quantity : ℚ) * (1 - item.discount.getD 0 / 100)

/-- The total recompute after a hold/unhold transition (Orders.tsx lines
734-738): sum of the subtotals over the active list. -/
def computeOrderTotal (items : List OrderItem) : ℚ :=
  items.foldl (fun sum item => sum + lineSubtotal item) 0

inductive HoldAction
  | hold
  | unhold
deriving DecidableEq, Repr

/-- Embeds handleToggleHoldInView (Orders.tsx lines 704-743): moves an
item between the viewed order's active and backordered lists and
recomputes the total from the new active list; every invalid transition
returns the order unchanged. -/
def handleToggleHoldInView (ctx : StockCtx) (allocations : List DriverAllocation)
    (products : List Product) (order : Order) (productId : String)
    (action : HoldAction) : Order :=
  match action with
  | HoldAction.hold =>
    match extractFirst (fun it => it.productId == productId) order.orderItems with
    | none => order
    | some (itemToMove, remaining) =>
      { order with
          orderItems := remaining,
          backorderedItems := order.backorderedItems ++ [itemToMove],
          total := computeOrderTotal remaining }
  | HoldAction.unhold =>
    match products.find? (fun p => p.id == productId) with
    | none => order
    | some product =>
      if getEffectiveStock ctx allocations product = 0 then order
      else
        match extractFirst (fun it => it.productId == productId) order.backorderedItems with
        | none => order
        | some (itemToMove, remaining) =>
          { order with
              orderItems := order.orderItems ++ [itemToMove],
              backorderedItems := remaining,
              total := computeOrderTotal (order.orderItems ++ [itemToMove]) }

/-- The persisted data the finalize workflow reads and writes. -/
structure FinState where
  orders : List Order
  products : List Product
  driverAllocations : List DriverAllocation
  customers : List Customer
deriving DecidableEq, Repr

inductive FinalizeError
  | emptyOrder
  | insufficientStock (name : String)
deriving DecidableEq, Repr

/-- Delivered quantity sum (the sold column value). -/
def soldQuantity (items : List OrderItem) : ℕ :=
  (items.map (fun item => item.quantity)).sum

/-- The stock-sufficiency scan of handleConfirmFinalize (lines 842-850):
the name reported for the first line whose product is missing or whose
effective stock is below the requested quantity; none when all pass. -/
def firstInsufficient (ctx : StockCtx) (allocations : List DriverAllocation)
    (products : List Product) : List OrderItem → Option String
  | [] => none
  | item :: rest =>
    match products.find? (fun p => p.id == item.productId) with
    | none => some "an item"
    | some product =>
      if getEffectiveStock ctx allocations product < item.quantity then some product.name
      else firstInsufficient ctx allocations products rest

/-- The driver-allocation update of handleConfirmFinalize (lines 858-896):
for a driver with a matching allocation for today, delivered quantities are
subtracted from the allocated items (clamped at 0, entries at 0 dropped)
and the delivered sum is added to salesTotal. -/
def updateDriverAllocations (ctx : StockCtx) (allocations : List DriverAllocation)
    (soldQty : ℕ) (deliveredItems : List OrderItem) : List DriverAllocation :=
  if ctx.role = UserRole.Driver ∧ 0 < allocations.length then
    match allocations.find? (fun a => a.driverId == ctx.userId && a.date == ctx.today) with
    | none => allocations
    | some allocation =>
      let newSalesTotal := allocation.salesTotal + soldQty
      let updatedAllocatedItems :=
        (allocation.allocatedItems.map (fun item =>
          match deliveredItems.find? (fun di => di.productId == item.productId) with
          | none => item
          | some delivered =>
            let newQty : ℤ := (item.quantity : ℤ) - (delivered.quantity : ℤ)
            { item with quantity := if 0 < newQty then newQty.toNat else 0 })).filter
          (fun item => 0 < item.quantity)
      allocations.map (fun a =>
        if a.id == allocation.id then
          { a with salesTotal := newSalesTotal, allocatedItems := updatedAllocatedItems }
        else a)
  else allocations

/-- One write of the stock-deduction loop (lines 900-911): the product row
is set to the snapshot stock minus the delivered quantity, but only when
the snapshot (the products state captured before the loop) covers it. -/
def deductStep (products : List Product) (db : List Product) (item : OrderItem) : List Product :=
  match products.find? (fun p => p.id == item.productId) with
  | none => db
  | some currentProduct =>
    if item.quantity ≤ currentProduct.stock then
      db.map (fun p =>
        if p.id = item.productId then { p with stock := currentProduct.stock - item.quantity }
        else p)
    else db

/-- The stock-deduction loop of handleConfirmFinalize: each delivered item
issues one write computed against the pre-loop products snapshot. -/
def deductStock (products : List Product) (items : List OrderItem) : List Product :=
  items.foldl (deductStep products) products

/-- The customer aggregate update (lines 924-934): totalSpent and
outstandingBalance recomputed over the customer's delivered orders, the
just-delivered order included. -/
def updateCustomerTotals (orders : List Order) (updatedOrder : Order)
    (customers : List Customer) : List Customer :=
  let customerOrders := orders.filter
    (fun o => o.customerId == updatedOrder.customerId ∧ o.status = OrderStatus.Delivered)
  let customerOrders :=
    if (customerOrders.find? (fun o => o.id == updatedOrder.id)).isNone then
      customerOrders ++ [updatedOrder]
    else customerOrders
  let totalSpent := (customerOrders.map (fun o => o.total)).sum
  let outstandingBalance :=
    (customerOrders.map (fun o => o.chequeBalance + o.creditBalance)).sum
  customers.map (fun c =>
    if c.id == updatedOrder.customerId then
      { c with totalSpent := totalSpent, outstandingBalance := outstandingBalance }
    else c)

/-- Embeds handleConfirmFinalize (Orders.tsx lines 832-982).  On an abort
(empty order or insufficient stock) the handler returns before any write,
so the state comes back unchanged next to the error; on success the order
is marked Delivered with its sold count, the driver allocation is
decremented, warehouse stock is deducted unless the order was already
Delivered before the call, and the customer aggregates are recomputed. -/
def handleConfirmFinalize (ctx : StockCtx) (st : FinState) (targetOrder : Order) :
    Option FinalizeError × FinState :=
  if targetOrder.orderItems.isEmpty then (some FinalizeError.emptyOrder, st)
  else
    match firstInsufficient ctx st.driverAllocations st.products targetOrder.orderItems with
    | some name => (some (FinalizeError.insufficientStock name), st)
    | none =>
      let soldQty := soldQuantity targetOrder.orderItems
      let allocations' :=
        updateDriverAllocations ctx st.driverAllocations soldQty targetOrder.orderItems
      let products' :=
        if targetOrder.status = OrderStatus.Delivered then st.products
        else deductStock st.products targetOrder.orderItems
      let updatedOrder := { targetOrder with status := OrderStatus.Delivered, sold := soldQty }
      let orders' := st.orders.map (fun o => if o.id == targetOrder.id then updatedOrder else o)
      let customers' := updateCustomerTotals st.orders updatedOrder st.customers
      (none, { orders := orders', products := products',
               driverAllocations := allocations', customers := customers' })

/-- What the specification describes as deducting each line's quantity
from the matching product's warehouse stock exactly once. -/
def deductOncePerLine (products : List Product) (items : List OrderItem) : List Product :=
  products.map (fun p =>
    match items.find? (fun it => it.productId == p.id) with
    | none => p
    | some it => { p with stock := p.stock - it.quantity })

/-- What the specification describes as the allocation after a driver
delivery: per-product quantities decreased by the delivered quantities,
floored at 0, entries that reach 0 dropped, and the delivered sum added to
salesTotal. -/
def allocationAfterDelivery (alloc : DriverAllocation)
    (deliveredItems : List OrderItem) : DriverAllocation :=
  { alloc with
      salesTotal := alloc.salesTotal + soldQuantity deliveredItems,
      allocatedItems := (alloc.allocatedItems.map (fun item =>
        match deliveredItems.find? (fun di => di.productId == item.productId) with
        | none => item
        | some delivered => { item with quantity := item.quantity - delivered.quantity })).filter
        (fun item => 0 < item.quantity) }

/-- Result of the create-mode branch of handleSaveOrder. -/
inductive SaveOrderResult
  | missingCustomerOrItems
  | customerNotFound
  | missingCustomerId
  | emptyActiveItems
  | created (items : List OrderItem) (backordered : List OrderItem) (total : ℚ)
deriving DecidableEq, Repr

/-- One step of the active/backordered partition in handleSaveOrder
(lines 563-582). -/
def saveItemsStep (env : AggEnv) (acc : List OrderItem × List OrderItem)
    (pq : String × ℕ) : List OrderItem × List OrderItem :=
  match env.products.find? (fun p => p.id == pq.1) with
  | none => acc
  | some product =>
    let price := (lookupQ env.orderItemPrices pq.1).getD product.price
    if pq.1 ∈ env.heldItems ∨ getEffectiveStock env.ctx env.allocations product = 0 then
      (acc.1, acc.2 ++ [⟨pq.1, pq.2, price, none⟩])
    else
      (acc.1 ++ [⟨pq.1, pq.2, price, some ((lookupQ env.orderDiscounts pq.1).getD 0)⟩], acc.2)

/-- The active/backordered partition in handleSaveOrder: lines with
positive quantity are split into new order items and backordered items. -/
def partitionSaveItems (env : AggEnv) (items : List (String × ℕ)) :
    List OrderItem × List OrderItem :=
  (items.filter (fun pq => decide (0 < pq.2))).foldl (saveItemsStep env) ([], [])

/-- Embeds the create-mode path of handleSaveOrder (Orders.tsx lines
551-639) up to the decision whether an order row is inserted: the initial
customer/items guard, the customer lookup, the active/backordered
partition, and the create-mode rejections. -/
def handleSaveOrderCreate (env : AggEnv) (customers : List Customer)
    (selectedCustomer : String) (items : List (String × ℕ)) : SaveOrderResult :=
  let agg := lineAggregate env items
  if selectedCustomer = "" ∨ (agg.inStockItems = 0 ∧ agg.heldItemsCount = 0) then
    SaveOrderResult.missingCustomerOrItems
  else
    match customers.find? (fun c => c.id == selectedCustomer) with
    | none => SaveOrderResult.customerNotFound
    | some customer =>
      let parts := partitionSaveItems env items
      if customer.id = "" then SaveOrderResult.missingCustomerId
      else if parts.1 = [] then SaveOrderResult.emptyActiveItems
      else SaveOrderResult.created parts.1 parts.2 agg.total

/-- Pointwise description of the net effect of the stock-deduction loop
on one database row: the last write that touches the row (under distinct
line product ids, the only one) stores snapshot stock minus quantity,
guarded by snapshot sufficiency. -/
def deductMapper (products : List Product) (items : List OrderItem) (p : Product) : Product :=
  match items.find? (fun it => it.productId == p.id) with
  | none => p
  | some it =>
    match products.find? (fun q => q.id == it.productId) with
    | none => p
    | some cur =>
      if it.quantity ≤ cur.stock then { p with stock := cur.stock - it.quantity } else p

lemma lineAggregate_fold (env : AggEnv) :
    ∀ (items : List (String × ℕ)) (acc : AggResult),
      (∀ pq ∈ items, (env.products.find? (fun p => p.id == pq.1)).isSome) →
      items.foldl (aggStep env) acc =
        { total := acc.total +
            ((items.filter (fun pq => decide (ActiveLine env pq))).map (aggLineValue env)).sum,
          inStockItems := acc.inStockItems +
            ((items.filter (fun pq => decide (ActiveLine env pq))).map (fun pq => pq.2)).sum,
          heldItemsCount := acc.heldItemsCount +
            ((items.filter (fun pq => decide (HeldLine env pq))).map (fun pq => pq.2)).sum } := by
  intro items
  induction items with
  | nil => intro acc _; simp
  | cons pq t ih =>
    intro acc h
    obtain ⟨product, hp⟩ := Option.isSome_iff_exists.mp (h pq (List.mem_cons_self pq t))
    have htail : ∀ q ∈ t, (env.products.find? (fun p => p.id == q.1)).isSome :=
      fun q hq => h q (List.mem_cons_of_mem pq hq)
    rw [List.foldl_cons, ih (aggStep env acc pq) htail]
    have hstock : effectiveStockOfId env.ctx env.allocations env.products pq.1 =
        getEffectiveStock env.ctx env.allocations product := by
      simp [effectiveStockOfId, hp]
    have hval : aggLineValue env pq =
        ((lookupQ env.orderItemPrices pq.1).getD product.price) *
          (1 - ((lookupQ env.orderDiscounts pq.1).getD 0) / 100) * pq.2 := by
      simp only [aggLineValue, catalogPrice, hp]
      ring
    by_cases hq : 0 < pq.2
    · by_cases hheld :
        pq.1 ∈ env.heldItems ∨ getEffectiveStock env.ctx env.allocations product = 0
      · have hAct : ¬ ActiveLine env pq := by
          simp only [ActiveLine, hstock, not_and, not_not]
          intro _ hnotin
          rcases hheld with h1 | h1
          · exact absurd h1 hnotin
          · exact h1
        have hHeld : HeldLine env pq := ⟨hq, by rw [hstock]; exact hheld⟩
        have hstep : aggStep env acc pq =
            { acc with heldItemsCount := acc.heldItemsCount + pq.2 } := by
          simp only [aggStep, hp]
          rw [if_pos hq, if_pos hheld]
        have hfa : (pq :: t).filter (fun pq => decide (ActiveLine env pq)) =
            t.filter (fun pq => decide (ActiveLine env pq)) := by
          simp [List.filter_cons, hAct]
        have hfh : (pq :: t).filter (fun pq => decide (HeldLine env pq)) =
            pq :: t.filter (fun pq => decide (HeldLine env pq)) := by
          simp [List.filter_cons, hHeld]
        rw [hstep, hfa, hfh]
        simp only [List.map_cons, List.sum_cons, AggResult.mk.injEq]
        refine ⟨trivial, trivial, by omega⟩
      · have hAct : ActiveLine env pq := by
          refine ⟨hq, ?_, ?_⟩
          · intro hin; exact hheld (Or.inl hin)
          · rw [hstock]; intro h0; exact hheld (Or.inr h0)
        have hHeld : ¬ HeldLine env pq := by
          intro hh
          rcases hh.2 with h1 | h1
          · exact hheld (Or.inl h1)
          · rw [hstock] at h1; exact hheld (Or.inr h1)
        have hstep : aggStep env acc pq =
            { acc with
                total := acc.total +
                  ((lookupQ env.orderItemPrices pq.1).getD product.price) *
                    (1 - ((lookupQ env.orderDiscounts pq.1).getD 0) / 100) * pq.2,
                inStockItems := acc.inStockItems + pq.2 } := by
          simp only [aggStep, hp]
          rw [if_pos hq, if_neg hheld]
        have hfa : (pq :: t).filter (fun pq => decide (ActiveLine env pq)) =
            pq :: t.filter (fun pq => decide (ActiveLine env pq)) := by
          simp [List.filter_cons, hAct]
        have hfh : (pq :: t).filter (fun pq => decide (HeldLine env pq)) =
            t.filter (fun pq => decide (HeldLine env pq)) := by
          simp [List.filter_cons, hHeld]
        rw [hstep, hfa, hfh]
        simp only [List.map_cons, List.sum_cons, AggResult.mk.injEq]
        refine ⟨by rw [hval]; ring, by omega, trivial⟩
    · have hAct : ¬ ActiveLine env pq := fun hh => hq hh.1
      have hHeld : ¬ HeldLine env pq := fun hh => hq hh.1
      have hstep : aggStep env acc pq = acc := by
        simp only [aggStep, hp]
        rw [if_neg hq]
      have hfa : (pq :: t).filter (fun pq => decide (ActiveLine env pq)) =
          t.filter (fun pq => decide (ActiveLine env pq)) := by
        simp [List.filter_cons, hAct]
      have hfh : (pq :: t).filter (fun pq => decide (HeldLine env pq)) =
          t.filter (fun pq => decide (HeldLine env pq)) := by
        simp [List.filter_cons, hHeld]
      rw [hstep, hfa, hfh]

/-- C1: for every quantities/prices/discounts/held-set input whose lines
all refer to catalog products, the aggregator computes: total = sum over
lines with positive quantity that are neither held nor at effective stock
0 of price x quantity x (1 - discount/100); such lines also contribute
their quantity to inStockItems; every other positive-quantity line
contributes its quantity to heldItemsCount only. -/
theorem C1_orderLineAggregator (env : AggEnv) (items : List (String × ℕ))
    (hfound : ∀ pq ∈ items, (env.products.find? (fun p => p.id == pq.1)).isSome) :
    lineAggregate env items =
      { total :=
          ((items.filter (fun pq => decide (ActiveLine env pq))).map (aggLineValue env)).sum,
        inStockItems :=
          ((items.filter (fun pq => decide (ActiveLine env pq))).map (fun pq => pq.2)).sum,
        heldItemsCount :=
          ((items.filter (fun pq => decide (HeldLine env pq))).map (fun pq => pq.2)).sum } := by
  rw [lineAggregate, lineAggregate_fold env items ⟨0, 0, 0⟩ hfound]
  simp

/-- Witness for C1 on the scenario from the specification: one line
{qty 5, price 100, discount 10} with stock 10 yields total 450,
inStockItems 5, heldItemsCount 0. -/
theorem C1_orderLineAggregator_witness :
    lineAggregate
      ⟨⟨UserRole.Admin, "U1", "2026-02-03"⟩, [], [⟨"P1", "Apple", 100, 10⟩],
        [("P1", 100)], [("P1", 10)], []⟩ [("P1", 5)] = ⟨450, 5, 0⟩ := by
  rw [C1_orderLineAggregator _ _ (by decide)]
  have hA : ActiveLine
      ⟨⟨UserRole.Admin, "U1", "2026-02-03"⟩, [], [⟨"P1", "Apple", 100, 10⟩],
        [("P1", 100)], [("P1", 10)], []⟩ ("P1", 5) := by
    refine ⟨by norm_num, by simp, ?_⟩
    simp [effectiveStockOfId, getEffectiveStock, List.find?]
  have hH : ¬ HeldLine
      ⟨⟨UserRole.Admin, "U1", "2026-02-03"⟩, [], [⟨"P1", "Apple", 100, 10⟩],
        [("P1", 100)], [("P1", 10)], []⟩ ("P1", 5) := by
    intro hh
    rcases hh.2 with h1 | h1
    · simp at h1
    · simp [effectiveStockOfId, getEffectiveStock, List.find?] at h1
  simp [List.filter_cons, hA, hH, aggLineValue, catalogPrice, lookupQ, List.find?]
  norm_num [AggResult.mk.injEq]

lemma posPart_eq_max (x : ℚ) : (if 0 < x then x else 0) = max 0 x := by
  rcases lt_or_le 0 x with h | h
  · rw [if_pos h, max_eq_right h.le]
  · rw [if_neg (not_lt.mpr h), max_eq_left h]

/-- C4: editing the cheque-balance field to a nonnegative value v sets the
derived credit balance to max(0, total - amountPaid - v), and editing the
amount-paid field to v sets it to max(0, total - chequeBalance - v). -/
theorem C4_balanceEdits (total amountPaid chequeBalance v : ℚ) (_hv : 0 ≤ v) :
    onChequeBalanceChange total (some amountPaid) (some v) =
      (some v, some (max 0 (total - amountPaid - v))) ∧
    onAmountPaidChange total (some chequeBalance) (some v) =
      (some v, some (max 0 (total - chequeBalance - v))) := by
  constructor
  · simp only [onChequeBalanceChange, posPart_eq_max]
  · simp only [onAmountPaidChange, posPart_eq_max]
    have harg : total - v - chequeBalance = total - chequeBalance - v := by ring
    rw [harg]

/-- Witness for C4 on the scenario from the specification: total 1000,
amountPaid 200, setting chequeBalance to 300 yields creditBalance 500. -/
theorem C4_balanceEdits_witness :
    onChequeBalanceChange 1000 (some 200) (some 300) = (some 300, some 500) := by
  have h := (C4_balanceEdits 1000 200 0 300 (by norm_num)).1
  rw [h]
  norm_num

/-- Counterexample to C5: with order total 1000 and cheque balance 0,
editing amount-paid to the nonnegative value 2000 leaves amountPaid +
chequeBalance + creditBalance = 2000 + 0 + 0, which is not the order
total, because the derived credit balance is clamped below at 0. -/
theorem C5_balanceInvariant_counterexample :
    onAmountPaidChange 1000 (some 0) (some 2000) = (some 2000, some 0) ∧
    (2000 : ℚ) + 0 + 0 ≠ 1000 := by
  constructor
  · simp only [onAmountPaidChange]
    norm_num
  · norm_num

/-- C5 (amended): after every edit of the cheque-balance or amount-paid
field to a nonnegative value, amountPaid + chequeBalance + creditBalance
equals max(orderTotal, amountPaid + chequeBalance); the claimed identity
amountPaid + chequeBalance + creditBalance = orderTotal therefore holds
exactly when the entered amounts do not exceed the order total. -/
theorem C5_balanceInvariant_amended (total amountPaid chequeBalance v : ℚ)
    (_hv : 0 ≤ v) :
    (∀ credit, (onChequeBalanceChange total (some amountPaid) (some v)).2 = some credit →
      amountPaid + v + credit = max total (amountPaid + v)) ∧
    (∀ credit, (onAmountPaidChange total (some chequeBalance) (some v)).2 = some credit →
      v + chequeBalance + credit = max total (v + chequeBalance)) := by
  constructor
  · intro credit hc
    simp only [onChequeBalanceChange, Option.some.injEq] at hc
    rcases lt_or_le 0 (total - amountPaid - v) with h | h
    · rw [if_pos h] at hc
      rw [← hc, max_eq_left (by linarith)]
      ring
    · rw [if_neg (not_lt.mpr h)] at hc
      rw [← hc, max_eq_right (by linarith)]
      ring
  · intro credit hc
    simp only [onAmountPaidChange, Option.some.injEq] at hc
    rcases lt_or_le 0 (total - v - chequeBalance) with h | h
    · rw [if_pos h] at hc
      rw [← hc, max_eq_left (by linarith)]
      ring
    · rw [if_neg (not_lt.mpr h)] at hc
      rw [← hc, max_eq_right (by linarith)]
      ring

/-- Witness for the amended C5 at the specification's scenario: total
1000, amountPaid 200, chequeBalance edited to 300, creditBalance 500. -/
theorem C5_balanceInvariant_amended_witness :
    (200 : ℚ) + 300 + 500 = max 1000 (200 + 300) := by
  refine (C5_balanceInvariant_amended 1000 200 0 300 (by norm_num)).1 500 ?_
  simp only [onChequeBalanceChange]
  norm_num

/-- Counterexample to C6: a non-held line whose product has effective
stock 0 accepts any requested quantity (the handler treats zero stock as
unlimited), instead of clamping to the effective stock as claimed. -/
theorem C6_quantityClamp_counterexample :
    handleQuantityChange ⟨UserRole.Admin, "U1", "2026-02-03"⟩ []
        [⟨"P1", "Widget", 1, 0⟩] [] "P1" 5 = some 5 ∧
    (max 0 (min 5 ((0 : ℕ) : ℤ))) ≠ 5 := by
  constructor
  · rfl
  · decide

/-- C6 (amended): the quantity-change operation stores
clamp(requested, 0, effectiveStock) when the line is active (not held) and
the effective stock is positive, and clamp(requested, 0, infinity) when the
line is held or the effective stock is 0; hence a stored quantity on an
active line with positive effective stock never exceeds that stock. -/
theorem C6_quantityClamp_amended (ctx : StockCtx) (allocations : List DriverAllocation)
    (products : List Product) (heldItems : List String) (productId : String)
    (q : ℤ) (product : Product)
    (hfind : products.find? (fun p => p.id == productId) = some product) :
    (productId ∉ heldItems → 0 < getEffectiveStock ctx allocations product →
      handleQuantityChange ctx allocations products heldItems productId q =
        some (max 0 (min q (getEffectiveStock ctx allocations product : ℤ)))) ∧
    ((productId ∈ heldItems ∨ getEffectiveStock ctx allocations product = 0) →
      handleQuantityChange ctx allocations products heldItems productId q =
        some (max 0 q)) ∧
    (∀ stored, productId ∉ heldItems → 0 < getEffectiveStock ctx allocations product →
      handleQuantityChange ctx allocations products heldItems productId q = some stored →
      stored ≤ (getEffectiveStock ctx allocations product : ℤ)) := by
  refine ⟨?_, ?_, ?_⟩
  · intro hnot hpos
    simp only [handleQuantityChange, hfind]
    rw [if_pos ⟨hpos, hnot⟩]
  · intro h
    have hneg : ¬ (0 < getEffectiveStock ctx allocations product ∧ productId ∉ heldItems) := by
      rcases h with h1 | h1
      · exact fun hh => hh.2 h1
      · exact fun hh => absurd hh.1 (by rw [h1]; exact lt_irrefl 0)
    simp only [handleQuantityChange, hfind]
    rw [if_neg hneg]
  · intro stored hnot hpos heq
    simp only [handleQuantityChange, hfind] at heq
    rw [if_pos ⟨hpos, hnot⟩, Option.some.injEq] at heq
    rw [← heq]
    show max 0 (min q ((getEffectiveStock ctx allocations product : ℤ))) ≤
      ((getEffectiveStock ctx allocations product : ℤ))
    omega

/-- Witness for the amended C6: effective stock 4, requesting 9 on an
active line stores clamp(9, 0, 4). -/
theorem C6_quantityClamp_amended_witness :
    handleQuantityChange ⟨UserRole.Admin, "U1", "2026-02-03"⟩ []
        [⟨"P1", "Widget", 1, 4⟩] [] "P1" 9 =
      some (max 0 (min 9 ((4 : ℕ) : ℤ))) := by
  have h := (C6_quantityClamp_amended ⟨UserRole.Admin, "U1", "2026-02-03"⟩ []
    [⟨"P1", "Widget", 1, 4⟩] [] "P1" 9 ⟨"P1", "Widget", 1, 4⟩ rfl).1
    (by simp) (by decide)
  exact h

lemma extractFirst_eq_none (p : OrderItem → Bool) (l : List OrderItem)
    (h : ∀ x ∈ l, p x = false) : extractFirst p l = none := by
  induction l with
  | nil => rfl
  | cons x xs ih =>
    have hx := h x (List.mem_cons_self x xs)
    have hxs := ih (fun y hy => h y (List.mem_cons_of_mem x hy))
    simp [extractFirst, hx, hxs]

/-- C7: an invalid hold/unhold transition on the viewed order (hold of a
product id not in the active list, unhold of an id not in the backordered
list, or unhold of a product whose effective stock is 0) leaves the order
- its item lists and its total - unchanged; the handler is total, so
nothing is thrown. -/
theorem C7_invalidHoldTransitions (ctx : StockCtx) (allocations : List DriverAllocation)
    (products : List Product) (order : Order) (productId : String) (action : HoldAction)
    (h : (action = HoldAction.hold ∧ ∀ it ∈ order.orderItems, it.productId ≠ productId) ∨
         (action = HoldAction.unhold ∧ ∀ it ∈ order.backorderedItems, it.productId ≠ productId) ∨
         (action = HoldAction.unhold ∧
           effectiveStockOfId ctx allocations products productId = 0)) :
    handleToggleHoldInView ctx allocations products order productId action = order := by
  rcases h with ⟨ha, hnone⟩ | ⟨ha, hnone⟩ | ⟨ha, hstock⟩
  · subst ha
    have he : extractFirst (fun it => it.productId == productId) order.orderItems = none := by
      apply extractFirst_eq_none
      intro x hx
      simp [hnone x hx]
    simp [handleToggleHoldInView, he]
  · subst ha
    cases hf : products.find? (fun p => p.id == productId) with
    | none => simp [handleToggleHoldInView, hf]
    | some product =>
      by_cases h0 : getEffectiveStock ctx allocations product = 0
      · simp [handleToggleHoldInView, hf, h0]
      · have he : extractFirst (fun it => it.productId == productId)
            order.backorderedItems = none := by
          apply extractFirst_eq_none
          intro x hx
          simp [hnone x hx]
        simp [handleToggleHoldInView, hf, h0, he]
  · subst ha
    cases hf : products.find? (fun p => p.id == productId) with
    | none => simp [handleToggleHoldInView, hf]
    | some product =>
      have h0 : getEffectiveStock ctx allocations product = 0 := by
        simp only [effectiveStockOfId, hf] at hstock
        exact hstock
      simp [handleToggleHoldInView, hf, h0]

/-- Witness for C7: holding a product absent from an empty active list is
a no-op. -/
theorem C7_invalidHoldTransitions_witness :
    handleToggleHoldInView ⟨UserRole.Admin, "U1", "2026-02-03"⟩ [] []
        ⟨"ORD001", "C1", OrderStatus.Pending, 0, [], [], 0, 0, 0⟩ "P1" HoldAction.hold =
      ⟨"ORD001", "C1", OrderStatus.Pending, 0, [], [], 0, 0, 0⟩ := by
  exact C7_invalidHoldTransitions _ _ _ _ _ _ (Or.inl ⟨rfl, by simp⟩)

lemma computeOrderTotal_eq_sum (items : List OrderItem) :
    computeOrderTotal items = (items.map lineSubtotal).sum := by
  suffices h : ∀ (l : List OrderItem) (a : ℚ),
      l.foldl (fun sum item => sum + lineSubtotal item) a = a + (l.map lineSubtotal).sum by
    simpa [computeOrderTotal] using h items 0
  intro l
  induction l with
  | nil => intro a; simp
  | cons x xs ih =>
    intro a
    rw [List.foldl_cons, ih]
    simp only [List.map_cons, List.sum_cons]
    ring

lemma extractFirst_some_pred (p : OrderItem → Bool) :
    ∀ (l : List OrderItem) (x : OrderItem) (r : List OrderItem),
      extractFirst p l = some (x, r) → p x = true := by
  intro l
  induction l with
  | nil => intro x r h; simp [extractFirst] at h
  | cons y ys ih =>
    intro x r h
    by_cases hy : p y = true
    · simp [extractFirst, hy] at h
      rw [← h.1]
      exact hy
    · simp only [extractFirst, Bool.not_eq_true] at h hy
      rw [hy] at h
      simp only [Bool.false_eq_true, if_false] at h
      cases he : extractFirst p ys with
      | none => rw [he] at h; simp at h
      | some pr =>
        rw [he] at h
        simp only [Option.some.injEq] at h
        rcases pr with ⟨z, zs⟩
        have hx : z = x := by
          have := congrArg Prod.fst h
          simpa using this
        rw [← hx]
        exact ih z zs he

lemma extractFirst_perm (p : OrderItem → Bool) :
    ∀ (l : List OrderItem) (x : OrderItem) (r : List OrderItem),
      extractFirst p l = some (x, r) → l.Perm (x :: r) := by
  intro l
  induction l with
  | nil => intro x r h; simp [extractFirst] at h
  | cons y ys ih =>
    intro x r h
    by_cases hy : p y = true
    · simp [extractFirst, hy] at h
      rw [h.1, h.2]
    · simp only [extractFirst, Bool.not_eq_true] at h hy
      rw [hy] at h
      simp only [Bool.false_eq_true, if_false] at h
      cases he : extractFirst p ys with
      | none => rw [he] at h; simp at h
      | some pr =>
        rw [he] at h
        simp only [Option.some.injEq] at h
        rcases pr with ⟨z, zs⟩
        have hx : z = x := by simpa using congrArg Prod.fst h
        have hr : y :: zs = r := by simpa using congrArg Prod.snd h
        rw [← hx, ← hr]
        exact ((ih z zs he).cons y).trans (List.Perm.swap z y zs)

lemma extractFirst_append (p : OrderItem → Bool) (l : List OrderItem) (y : OrderItem)
    (h : ∀ x ∈ l, p x = false) (hy : p y = true) :
    extractFirst p (l ++ [y]) = some (y, l) := by
  induction l with
  | nil => simp [extractFirst, hy]
  | cons x xs ih =>
    have hx := h x (List.mem_cons_self x xs)
    have ihx := ih (fun z hz => h z (List.mem_cons_of_mem x hz))
    simp [extractFirst, hx, ihx]

/-- C8: hold then unhold of a product id present in the viewed order's
active list (the product having positive effective stock, the backordered
list not already containing the id, and the order's total consistent with
its active list) restores the line - identical quantity, price and
discount - to the active list, restores the backordered list, and restores
the total to its pre-hold value; after each of the two transitions the
total equals the recomputed sum over the then-current active list. -/
theorem C8_holdUnholdRoundTrip (ctx : StockCtx) (allocations : List DriverAllocation)
    (products : List Product) (order : Order) (productId : String)
    (item : OrderItem) (rest : List OrderItem)
    (hex : extractFirst (fun it => it.productId == productId) order.orderItems =
      some (item, rest))
    (hback : ∀ it ∈ order.backorderedItems, it.productId ≠ productId)
    (hstock : 0 < effectiveStockOfId ctx allocations products productId)
    (htotal : order.total = computeOrderTotal order.orderItems) :
    (handleToggleHoldInView ctx allocations products
        (handleToggleHoldInView ctx allocations products order productId HoldAction.hold)
        productId HoldAction.unhold).orderItems = rest ++ [item] ∧
    (handleToggleHoldInView ctx allocations products
        (handleToggleHoldInView ctx allocations products order productId HoldAction.hold)
        productId HoldAction.unhold).backorderedItems = order.backorderedItems ∧
    (handleToggleHoldInView ctx allocations products
        (handleToggleHoldInView ctx allocations products order productId HoldAction.hold)
        productId HoldAction.unhold).total = order.total ∧
    (handleToggleHoldInView ctx allocations products order productId HoldAction.hold).total =
      computeOrderTotal
        (handleToggleHoldInView ctx allocations products order productId HoldAction.hold).orderItems ∧
    (handleToggleHoldInView ctx allocations products
        (handleToggleHoldInView ctx allocations products order productId HoldAction.hold)
        productId HoldAction.unhold).total =
      computeOrderTotal (handleToggleHoldInView ctx allocations products
        (handleToggleHoldInView ctx allocations products order productId HoldAction.hold)
        productId HoldAction.unhold).orderItems ∧
    order.orderItems.Perm (rest ++ [item]) := by
  obtain ⟨product, hf, hne⟩ :
      ∃ product, products.find? (fun p => p.id == productId) = some product ∧
        getEffectiveStock ctx allocations product ≠ 0 := by
    cases hfp : products.find? (fun p => p.id == productId) with
    | none =>
      simp only [effectiveStockOfId, hfp] at hstock
      exact absurd hstock (by simp)
    | some p =>
      simp only [effectiveStockOfId, hfp] at hstock
      exact ⟨p, rfl, by omega⟩
  have hpitem := extractFirst_some_pred _ _ _ _ hex
  have hexb : extractFirst (fun it => it.productId == productId)
      (order.backorderedItems ++ [item]) = some (item, order.backorderedItems) :=
    extractFirst_append _ _ _ (fun x hx => by simp [hback x hx]) hpitem
  have ho1 : handleToggleHoldInView ctx allocations products order productId HoldAction.hold =
      { order with
          orderItems := rest,
          backorderedItems := order.backorderedItems ++ [item],
          total := computeOrderTotal rest } := by
    simp [handleToggleHoldInView, hex]
  have ho2 : handleToggleHoldInView ctx allocations products
      { order with
          orderItems := rest,
          backorderedItems := order.backorderedItems ++ [item],
          total := computeOrderTotal rest } productId HoldAction.unhold =
      { order with
          orderItems := rest ++ [item],
          backorderedItems := order.backorderedItems,
          total := computeOrderTotal (rest ++ [item]) } := by
    simp [handleToggleHoldInView, hf, hne, hexb]
  have hperm : order.orderItems.Perm (rest ++ [item]) :=
    (extractFirst_perm _ _ _ _ hex).trans (List.perm_append_singleton item rest).symm
  have htot_eq : computeOrderTotal (rest ++ [item]) = computeOrderTotal order.orderItems := by
    rw [computeOrderTotal_eq_sum, computeOrderTotal_eq_sum]
    exact ((hperm.map _).sum_eq).symm
  rw [ho1, ho2]
  refine ⟨rfl, rfl, ?_, rfl, rfl, hperm⟩
  rw [htotal]
  exact htot_eq

/-- Witness for C8: a one-line order; hold then unhold restores the total
to 100. -/
theorem C8_holdUnholdRoundTrip_witness :
    (handleToggleHoldInView ⟨UserRole.Admin, "U1", "2026-02-03"⟩ [] [⟨"P1", "Widget", 50, 4⟩]
        (handleToggleHoldInView ⟨UserRole.Admin, "U1", "2026-02-03"⟩ [] [⟨"P1", "Widget", 50, 4⟩]
          ⟨"ORD001", "C1", OrderStatus.Pending, 100, [⟨"P1", 2, 50, some 0⟩], [], 0, 0, 0⟩
          "P1" HoldAction.hold)
        "P1" HoldAction.unhold).total =
      (⟨"ORD001", "C1", OrderStatus.Pending, 100, [⟨"P1", 2, 50, some 0⟩], [], 0, 0, 0⟩ :
        Order).total :=
  (C8_holdUnholdRoundTrip ⟨UserRole.Admin, "U1", "2026-02-03"⟩ [] [⟨"P1", "Widget", 50, 4⟩]
    ⟨"ORD001", "C1", OrderStatus.Pending, 100, [⟨"P1", 2, 50, some 0⟩], [], 0, 0, 0⟩
    "P1" ⟨"P1", 2, 50, some 0⟩ [] rfl (by simp) (by decide)
    (by norm_num [computeOrderTotal, lineSubtotal, List.foldl_cons, List.foldl_nil,
      Option.getD_some])).2.2.1

lemma firstInsufficient_isSome (ctx : StockCtx) (allocations : List DriverAllocation)
    (products : List Product) :
    ∀ (items : List OrderItem),
      (∃ item ∈ items,
        effectiveStockOfId ctx allocations products item.productId < item.quantity) →
      (firstInsufficient ctx allocations products items).isSome := by
  intro items
  induction items with
  | nil =>
    rintro ⟨item, him, _⟩
    exact absurd him (List.not_mem_nil item)
  | cons it t ih =>
    rintro ⟨item, him, hlt⟩
    cases hf : products.find? (fun p => p.id == it.productId) with
    | none => simp [firstInsufficient, hf]
    | some product =>
      by_cases hq : getEffectiveStock ctx allocations product < it.quantity
      · simp [firstInsufficient, hf, hq]
      · have hrec : ∃ item ∈ t,
            effectiveStockOfId ctx allocations products item.productId < item.quantity := by
          rcases List.mem_cons.mp him with he | ht
          · exfalso
            subst he
            simp only [effectiveStockOfId, hf] at hlt
            omega
          · exact ⟨item, ht, hlt⟩
        have := ih hrec
        simp [firstInsufficient, hf, hq, this]

/-- C2: if some active line item of the order has effective stock strictly
below its quantity, finalize aborts with the insufficient-stock error
naming the first failing product, and the state comes back unchanged: no
stock deducted, no order, allocation or customer update. -/
theorem C2_insufficientStockAbortsFinalize (ctx : StockCtx) (st : FinState) (o : Order)
    (h : ∃ item ∈ o.orderItems,
      effectiveStockOfId ctx st.driverAllocations st.products item.productId < item.quantity) :
    ∃ name, firstInsufficient ctx st.driverAllocations st.products o.orderItems = some name ∧
      handleConfirmFinalize ctx st o = (some (FinalizeError.insufficientStock name), st) := by
  have hsome := firstInsufficient_isSome ctx st.driverAllocations st.products o.orderItems h
  obtain ⟨name, hname⟩ := Option.isSome_iff_exists.mp hsome
  refine ⟨name, hname, ?_⟩
  have hne : o.orderItems.isEmpty = false := by
    rcases h with ⟨item, him, _⟩
    cases ho : o.orderItems with
    | nil => rw [ho] at him; exact absurd him (List.not_mem_nil item)
    | cons a l => rfl
  simp [handleConfirmFinalize, hne, hname]

/-- Witness for C2 on the specification's scenario: effective stock 3,
requested quantity 5; finalize fails naming the product and the state is
untouched. -/
theorem C2_insufficientStockAbortsFinalize_witness :
    handleConfirmFinalize ⟨UserRole.Admin, "U1", "2026-02-03"⟩
        ⟨[], [⟨"P1", "Apple", 100, 3⟩], [], []⟩
        ⟨"ORD001", "C1", OrderStatus.Pending, 500, [⟨"P1", 5, 100, none⟩], [], 0, 0, 0⟩ =
      (some (FinalizeError.insufficientStock "Apple"),
        ⟨[], [⟨"P1", "Apple", 100, 3⟩], [], []⟩) := by
  obtain ⟨name, hname, hres⟩ := C2_insufficientStockAbortsFinalize
    ⟨UserRole.Admin, "U1", "2026-02-03"⟩ ⟨[], [⟨"P1", "Apple", 100, 3⟩], [], []⟩
    ⟨"ORD001", "C1", OrderStatus.Pending, 500, [⟨"P1", 5, 100, none⟩], [], 0, 0, 0⟩
    ⟨⟨"P1", 5, 100, none⟩, by simp, by decide⟩
  have h2 : firstInsufficient ⟨UserRole.Admin, "U1", "2026-02-03"⟩ []
      [⟨"P1", "Apple", 100, 3⟩] [⟨"P1", 5, 100, none⟩] = some "Apple" := by decide
  rw [h2] at hname
  have hn : name = "Apple" := (Option.some.inj hname).symm
  rw [hn] at hres
  exact hres

lemma finalize_ok_parts (ctx : StockCtx) (st : FinState) (o : Order)
    (hsucc : (handleConfirmFinalize ctx st o).1 = none) :
    o.orderItems.isEmpty = false ∧
    firstInsufficient ctx st.driverAllocations st.products o.orderItems = none := by
  by_cases he : o.orderItems.isEmpty
  · exfalso
    simp [handleConfirmFinalize, he] at hsucc
  · have hef : o.orderItems.isEmpty = false := by simpa using he
    refine ⟨hef, ?_⟩
    cases hs : firstInsufficient ctx st.driverAllocations st.products o.orderItems with
    | none => rfl
    | some nm =>
      exfalso
      simp [handleConfirmFinalize, hef, hs] at hsucc

lemma finalize_ok_eq (ctx : StockCtx) (st : FinState) (o : Order)
    (he : o.orderItems.isEmpty = false)
    (hs : firstInsufficient ctx st.driverAllocations st.products o.orderItems = none) :
    handleConfirmFinalize ctx st o =
      (none,
       { orders := st.orders.map (fun ord =>
           if ord.id == o.id then
             { o with status := OrderStatus.Delivered, sold := soldQuantity o.orderItems }
           else ord),
         products := if o.status = OrderStatus.Delivered then st.products
           else deductStock st.products o.orderItems,
         driverAllocations := updateDriverAllocations ctx st.driverAllocations
           (soldQuantity o.orderItems) o.orderItems,
         customers := updateCustomerTotals st.orders
           { o with status := OrderStatus.Delivered, sold := soldQuantity o.orderItems }
           st.customers }) := by
  simp [handleConfirmFinalize, he, hs]

lemma toNat_floor_sub (a b : ℕ) :
    (if 0 < (a : ℤ) - (b : ℤ) then ((a : ℤ) - (b : ℤ)).toNat else 0) = a - b := by
  by_cases h : 0 < (a : ℤ) - (b : ℤ)
  · rw [if_pos h]; omega
  · rw [if_neg h]; omega

/-- C9: when a driver with an allocation record for today finalizes an
order (and the finalize checks pass), the allocation is updated exactly as
specified: each allocated item whose product appears in the delivered
lines has its quantity decreased by the delivered quantity floored at 0,
entries that reach 0 are dropped, and salesTotal grows by the delivered
sum. -/
theorem C9_driverAllocationUpdate (ctx : StockCtx) (st : FinState) (o : Order)
    (alloc : DriverAllocation)
    (hrole : ctx.role = UserRole.Driver)
    (hfind : st.driverAllocations.find?
      (fun a => a.driverId == ctx.userId && a.date == ctx.today) = some alloc)
    (hnodup : (st.driverAllocations.map (fun a => a.id)).Nodup)
    (hsucc : (handleConfirmFinalize ctx st o).1 = none) :
    (handleConfirmFinalize ctx st o).2.driverAllocations =
      st.driverAllocations.map (fun a =>
        if a.id == alloc.id then allocationAfterDelivery alloc o.orderItems else a) := by
  obtain ⟨he, hs⟩ := finalize_ok_parts ctx st o hsucc
  rw [finalize_ok_eq ctx st o he hs]
  show updateDriverAllocations ctx st.driverAllocations (soldQuantity o.orderItems) o.orderItems =
    st.driverAllocations.map (fun a =>
      if a.id == alloc.id then allocationAfterDelivery alloc o.orderItems else a)
  have hlen : 0 < st.driverAllocations.length := by
    rcases hda : st.driverAllocations with _ | ⟨a, l⟩
    · rw [hda] at hfind
      simp [List.find?] at hfind
    · simp
  have hmem : alloc ∈ st.driverAllocations := List.mem_of_find?_eq_some hfind
  simp only [updateDriverAllocations]
  rw [if_pos ⟨hrole, hlen⟩, hfind]
  apply List.map_congr_left
  intro a ha
  by_cases hid : (a.id == alloc.id) = true
  · have haeq : a = alloc :=
      List.inj_on_of_nodup_map hnodup ha hmem (by simpa using hid)
    rw [if_pos hid, if_pos hid, haeq]
    simp only [allocationAfterDelivery, DriverAllocation.mk.injEq]
    refine ⟨trivial, trivial, trivial, ?_, trivial⟩
    apply congrArg
    apply List.map_congr_left
    intro item _
    cases hd : o.orderItems.find? (fun di => di.productId == item.productId) with
    | none => rfl
    | some delivered =>
      simp only [AllocatedItem.mk.injEq]
      exact ⟨trivial, toNat_floor_sub item.quantity delivered.quantity⟩
  · rw [if_neg hid, if_neg hid]

/-- Witness for C9: a driver with an allocation of 5 x P1 and 2 x P2
delivers 3 x P1; the allocation becomes 2 x P1, 2 x P2 with salesTotal 3. -/
theorem C9_driverAllocationUpdate_witness :
    (handleConfirmFinalize ⟨UserRole.Driver, "U1", "2026-02-03"⟩
        ⟨[], [⟨"P1", "Widget", 10, 9⟩],
          [⟨"A1", "U1", "2026-02-03", [⟨"P1", 5⟩, ⟨"P2", 2⟩], 0⟩], []⟩
        ⟨"ORD001", "C1", OrderStatus.Pending, 30, [⟨"P1", 3, 10, none⟩], [], 0, 0, 0⟩
      ).2.driverAllocations =
      [⟨"A1", "U1", "2026-02-03", [⟨"P1", 2⟩, ⟨"P2", 2⟩], 3⟩] := by
  rw [C9_driverAllocationUpdate ⟨UserRole.Driver, "U1", "2026-02-03"⟩
    ⟨[], [⟨"P1", "Widget", 10, 9⟩],
      [⟨"A1", "U1", "2026-02-03", [⟨"P1", 5⟩, ⟨"P2", 2⟩], 0⟩], []⟩
    ⟨"ORD001", "C1", OrderStatus.Pending, 30, [⟨"P1", 3, 10, none⟩], [], 0, 0, 0⟩
    ⟨"A1", "U1", "2026-02-03", [⟨"P1", 5⟩, ⟨"P2", 2⟩], 0⟩
    rfl (by decide) (by decide) (by decide)]
  decide

lemma firstInsufficient_none_forall (ctx : StockCtx) (allocations : List DriverAllocation)
    (products : List Product) :
    ∀ (items : List OrderItem),
      firstInsufficient ctx allocations products items = none →
      ∀ item ∈ items, ∃ cur, products.find? (fun p => p.id == item.productId) = some cur ∧
        item.quantity ≤ getEffectiveStock ctx allocations cur := by
  intro items
  induction items with
  | nil =>
    intro _ item him
    exact absurd him (List.not_mem_nil item)
  | cons it t ih =>
    intro h item him
    cases hf : products.find? (fun p => p.id == it.productId) with
    | none => simp [firstInsufficient, hf] at h
    | some product =>
      by_cases hq : getEffectiveStock ctx allocations product < it.quantity
      · simp [firstInsufficient, hf, hq] at h
      · have ht : firstInsufficient ctx allocations products t = none := by
          simpa [firstInsufficient, hf, hq] using h
        rcases List.mem_cons.mp him with he | hm
        · subst he
          exact ⟨product, hf, by omega⟩
        · exact ih ht item hm

lemma deductStock_foldl (products : List Product) :
    ∀ (items : List OrderItem) (db : List Product),
      (items.map (fun it => it.productId)).Nodup →
      items.foldl (deductStep products) db = db.map (deductMapper products items) := by
  intro items
  induction items with
  | nil =>
    intro db _
    have hid : ∀ p : Product, deductMapper products [] p = p := by
      intro p
      simp [deductMapper]
    rw [List.foldl_nil, List.map_congr_left (fun p _ => hid p), List.map_id']
  | cons it t ih =>
    intro db hnodup
    rw [List.map_cons, List.nodup_cons] at hnodup
    obtain ⟨hnotin, hnd⟩ := hnodup
    rw [List.foldl_cons, ih (deductStep products db it) hnd]
    have hfind_t_none : ∀ p : Product, (it.productId == p.id) = true →
        t.find? (fun i2 => i2.productId == p.id) = none := by
      intro p hidp
      apply List.find?_eq_none.mpr
      intro x hx hpx
      apply hnotin
      have hx1 : x.productId = p.id := by simpa using hpx
      have hx2 : it.productId = p.id := by simpa using hidp
      have hx3 : it.productId = x.productId := by rw [hx2, hx1]
      exact hx3 ▸ List.mem_map_of_mem (fun i2 => i2.productId) hx
    cases hpf : products.find? (fun q => q.id == it.productId) with
    | none =>
      have hstep : deductStep products db it = db := by simp [deductStep, hpf]
      rw [hstep]
      apply List.map_congr_left
      intro p _
      by_cases hidp : (it.productId == p.id) = true
      · simp only [deductMapper, List.find?, hidp, hfind_t_none p hidp, hpf]
      · simp only [deductMapper, List.find?, hidp]
    | some cur =>
      by_cases hguard : it.quantity ≤ cur.stock
      · have hstep : deductStep products db it =
            db.map (fun p => if p.id = it.productId
              then { p with stock := cur.stock - it.quantity } else p) := by
          simp [deductStep, hpf, hguard]
        rw [hstep, List.map_map]
        apply List.map_congr_left
        intro p _
        by_cases hidp : (it.productId == p.id) = true
        · have hpid : p.id = it.productId := by
            have h1 : it.productId = p.id := by simpa using hidp
            exact h1.symm
          simp only [Function.comp_apply, if_pos hpid]
          simp only [deductMapper, List.find?, hidp, hfind_t_none p hidp, hpf, if_pos hguard]
        · have hpid : ¬ p.id = it.productId := by
            intro hcontra
            exact hidp (by simp [hcontra])
          simp only [Function.comp_apply, if_neg hpid]
          simp only [deductMapper, List.find?, hidp]
      · have hstep : deductStep products db it = db := by simp [deductStep, hpf, hguard]
        rw [hstep]
        apply List.map_congr_left
        intro p _
        by_cases hidp : (it.productId == p.id) = true
        · simp only [deductMapper, List.find?, hidp, hfind_t_none p hidp, hpf, if_neg hguard]
        · simp only [deductMapper, List.find?, hidp]

lemma finalize_delivered_products (ctx : StockCtx) (st : FinState) (o : Order)
    (h : o.status = OrderStatus.Delivered) :
    ((handleConfirmFinalize ctx st o).2).products = st.products := by
  by_cases he : o.orderItems.isEmpty
  · simp [handleConfirmFinalize, he]
  · have hef : o.orderItems.isEmpty = false := by simpa using he
    cases hs : firstInsufficient ctx st.driverAllocations st.products o.orderItems with
    | some nm => simp [handleConfirmFinalize, hef, hs]
    | none => simp [handleConfirmFinalize, hef, hs, h]

/-- C3 (amended): an order whose status is already Delivered at the start
of the call never has stock deducted (the deduction loop is guarded by the
pre-call status); and when a non-driver successfully finalizes an order
with pairwise-distinct line product ids (so the step-2 check guarantees
the warehouse covers every line) against a catalog with distinct product
ids, the first call deducts each line's quantity from warehouse stock
exactly once and a second call on the now-Delivered order deducts nothing
more. -/
theorem C3_finalizeIdempotent_amended (ctx : StockCtx) (st : FinState) (o : Order)
    (hrole : ctx.role ≠ UserRole.Driver)
    (hnodupI : (o.orderItems.map (fun it => it.productId)).Nodup)
    (hnodupP : (st.products.map (fun p => p.id)).Nodup)
    (hstatus : o.status ≠ OrderStatus.Delivered)
    (hsucc : (handleConfirmFinalize ctx st o).1 = none) :
    (∀ (st' : FinState) (o' : Order), o'.status = OrderStatus.Delivered →
      ((handleConfirmFinalize ctx st' o').2).products = st'.products) ∧
    ((handleConfirmFinalize ctx st o).2).products =
      deductOncePerLine st.products o.orderItems ∧
    ((handleConfirmFinalize ctx ((handleConfirmFinalize ctx st o).2)
        { o with status := OrderStatus.Delivered,
                 sold := soldQuantity o.orderItems }).2).products =
      deductOncePerLine st.products o.orderItems := by
  obtain ⟨he, hs⟩ := finalize_ok_parts ctx st o hsucc
  have hkey : ((handleConfirmFinalize ctx st o).2).products =
      deductOncePerLine st.products o.orderItems := by
    rw [finalize_ok_eq ctx st o he hs]
    show (if o.status = OrderStatus.Delivered then st.products
      else deductStock st.products o.orderItems) = deductOncePerLine st.products o.orderItems
    rw [if_neg hstatus, deductStock,
      deductStock_foldl st.products o.orderItems st.products hnodupI, deductOncePerLine]
    apply List.map_congr_left
    intro p hp
    cases hfi : o.orderItems.find? (fun it => it.productId == p.id) with
    | none => simp [deductMapper, hfi]
    | some it =>
      have hit_mem := List.mem_of_find?_eq_some hfi
      have hit_pred := List.find?_some hfi
      obtain ⟨cur, hcur, hle⟩ := firstInsufficient_none_forall ctx st.driverAllocations
        st.products o.orderItems hs it hit_mem
      have hcur_mem := List.mem_of_find?_eq_some hcur
      have hcur_pred := List.find?_some hcur
      have hcur_eq : cur = p := by
        apply List.inj_on_of_nodup_map hnodupP hcur_mem hp
        have h1 : cur.id = it.productId := by simpa using hcur_pred
        have h2 : it.productId = p.id := by simpa using hit_pred
        rw [h1, h2]
      have heff : getEffectiveStock ctx st.driverAllocations cur = cur.stock := by
        simp [getEffectiveStock, hrole]
      rw [heff, hcur_eq] at hle
      rw [hcur_eq] at hcur
      simp [deductMapper, hfi, hcur, hle]
  refine ⟨fun st' o' h => finalize_delivered_products ctx st' o' h, hkey, ?_⟩
  rw [finalize_delivered_products ctx ((handleConfirmFinalize ctx st o).2)
    { o with status := OrderStatus.Delivered, sold := soldQuantity o.orderItems } rfl]
  exact hkey

/-- Witness for the amended C3: an admin finalizes a 5-unit line against
stock 7; after two finalize calls the stock is 2, deducted exactly once. -/
theorem C3_finalizeIdempotent_amended_witness :
    ((handleConfirmFinalize ⟨UserRole.Admin, "U1", "2026-02-03"⟩
        ((handleConfirmFinalize ⟨UserRole.Admin, "U1", "2026-02-03"⟩
          ⟨[⟨"ORD001", "C1", OrderStatus.Pending, 50, [⟨"P1", 5, 10, none⟩], [], 0, 0, 0⟩],
            [⟨"P1", "Widget", 10, 7⟩], [], [⟨"C1", 0, 0⟩]⟩
          ⟨"ORD001", "C1", OrderStatus.Pending, 50, [⟨"P1", 5, 10, none⟩], [], 0, 0, 0⟩).2)
        { (⟨"ORD001", "C1", OrderStatus.Pending, 50, [⟨"P1", 5, 10, none⟩], [], 0, 0, 0⟩ : Order)
            with status := OrderStatus.Delivered,
                 sold := soldQuantity [⟨"P1", 5, 10, none⟩] }).2).products =
      deductOncePerLine [⟨"P1", "Widget", 10, 7⟩] [⟨"P1", 5, 10, none⟩] :=
  (C3_finalizeIdempotent_amended ⟨UserRole.Admin, "U1", "2026-02-03"⟩
    ⟨[⟨"ORD001", "C1", OrderStatus.Pending, 50, [⟨"P1", 5, 10, none⟩], [], 0, 0, 0⟩],
      [⟨"P1", "Widget", 10, 7⟩], [], [⟨"C1", 0, 0⟩]⟩
    ⟨"ORD001", "C1", OrderStatus.Pending, 50, [⟨"P1", 5, 10, none⟩], [], 0, 0, 0⟩
    (by decide) (by decide) (by decide) (by decide) (by decide)).2.2

/-- Counterexample to C3 as stated: a driver whose allocation covers the
line (5 allocated) but whose product has warehouse stock only 2 passes the
finalize check, yet the per-line guard inside the deduction loop skips the
write, so two finalize calls deduct the line zero times - not exactly
once. -/
theorem C3_finalizeIdempotent_counterexample :
    (handleConfirmFinalize ⟨UserRole.Driver, "U1", "2026-02-03"⟩
        ⟨[], [⟨"P1", "Widget", 10, 2⟩], [⟨"A1", "U1", "2026-02-03", [⟨"P1", 5⟩], 0⟩], []⟩
        ⟨"ORD001", "C1", OrderStatus.Pending, 50, [⟨"P1", 5, 10, none⟩], [], 0, 0, 0⟩).1 =
      none ∧
    ((handleConfirmFinalize ⟨UserRole.Driver, "U1", "2026-02-03"⟩
        ((handleConfirmFinalize ⟨UserRole.Driver, "U1", "2026-02-03"⟩
          ⟨[], [⟨"P1", "Widget", 10, 2⟩], [⟨"A1", "U1", "2026-02-03", [⟨"P1", 5⟩], 0⟩], []⟩
          ⟨"ORD001", "C1", OrderStatus.Pending, 50, [⟨"P1", 5, 10, none⟩], [], 0, 0, 0⟩).2)
        ⟨"ORD001", "C1", OrderStatus.Delivered, 50, [⟨"P1", 5, 10, none⟩], [], 0, 0, 5⟩
      ).2).products ≠
      deductOncePerLine [⟨"P1", "Widget", 10, 2⟩] [⟨"P1", 5, 10, none⟩] := by
  constructor
  · decide
  · decide

lemma aggStep_held_le (env : AggEnv) (acc : AggResult) (pq : String × ℕ) :
    acc.heldItemsCount ≤ (aggStep env acc pq).heldItemsCount := by
  cases hf : env.products.find? (fun p => p.id == pq.1) with
  | none => simp [aggStep, hf]
  | some product =>
    by_cases hq : 0 < pq.2
    · by_cases hheld :
        pq.1 ∈ env.heldItems ∨ getEffectiveStock env.ctx env.allocations product = 0
      · simp only [aggStep, hf]
        rw [if_pos hq, if_pos hheld]
        simp
      · simp only [aggStep, hf]
        rw [if_pos hq, if_neg hheld]
    · simp only [aggStep, hf]
      rw [if_neg hq]

lemma foldl_held_mono (env : AggEnv) :
    ∀ (items : List (String × ℕ)) (acc : AggResult),
      acc.heldItemsCount ≤ (items.foldl (aggStep env) acc).heldItemsCount := by
  intro items
  induction items with
  | nil => intro acc; exact le_refl _
  | cons a t ih =>
    intro acc
    rw [List.foldl_cons]
    exact le_trans (aggStep_held_le env acc a) (ih (aggStep env acc a))

lemma lineAggregate_heldCount_pos (env : AggEnv) (items : List (String × ℕ))
    (pq : String × ℕ) (hmem : pq ∈ items) (hq : 0 < pq.2) (product : Product)
    (hf : env.products.find? (fun p => p.id == pq.1) = some product)
    (hheld : pq.1 ∈ env.heldItems ∨ getEffectiveStock env.ctx env.allocations product = 0) :
    0 < (lineAggregate env items).heldItemsCount := by
  suffices haux : ∀ (l : List (String × ℕ)) (acc : AggResult), pq ∈ l →
      0 < (l.foldl (aggStep env) acc).heldItemsCount from haux items ⟨0, 0, 0⟩ hmem
  intro l
  induction l with
  | nil => intro acc h; exact absurd h (List.not_mem_nil pq)
  | cons a t ih =>
    intro acc hm
    rw [List.foldl_cons]
    rcases List.mem_cons.mp hm with he | hm2
    · subst he
      have h1 : 0 < (aggStep env acc pq).heldItemsCount := by
        simp only [aggStep, hf]
        rw [if_pos hq, if_pos hheld]
        simp
        omega
      exact lt_of_lt_of_le h1 (foldl_held_mono env t _)
    · exact ih _ hm2

lemma partition_fold_fst (env : AggEnv) :
    ∀ (l : List (String × ℕ)) (acc : List OrderItem × List OrderItem),
      (∀ pq ∈ l, ∀ product, env.products.find? (fun p => p.id == pq.1) = some product →
        (pq.1 ∈ env.heldItems ∨ getEffectiveStock env.ctx env.allocations product = 0)) →
      (l.foldl (saveItemsStep env) acc).1 = acc.1 := by
  intro l
  induction l with
  | nil => intro acc _; rfl
  | cons a t ih =>
    intro acc h
    rw [List.foldl_cons,
      ih (saveItemsStep env acc a) (fun pq hm product hf =>
        h pq (List.mem_cons_of_mem a hm) product hf)]
    cases hf : env.products.find? (fun p => p.id == a.1) with
    | none => simp [saveItemsStep, hf]
    | some product =>
      simp only [saveItemsStep, hf]
      rw [if_pos (h a (List.mem_cons_self a t) product hf)]

/-- C10: in create mode, when every positive-quantity line (whose product
is in the catalog) is held or effectively out of stock - so the computed
active-item list is empty while the held count is positive - the save is
rejected at the create-mode empty-items check and no order is inserted,
even though the initial guard accepts the selection (its held count is
positive). -/
theorem C10_backorderedOnlyOrderRejected (env : AggEnv) (customers : List Customer)
    (selectedCustomer : String) (items : List (String × ℕ))
    (hc : selectedCustomer ≠ "")
    (hcust : ∃ customer, customers.find? (fun c => c.id == selectedCustomer) = some customer)
    (hall : ∀ pq ∈ items, 0 < pq.2 → ∀ product,
      env.products.find? (fun p => p.id == pq.1) = some product →
      (pq.1 ∈ env.heldItems ∨ getEffectiveStock env.ctx env.allocations product = 0))
    (hex : ∃ pq ∈ items, 0 < pq.2 ∧
      ∃ product, env.products.find? (fun p => p.id == pq.1) = some product) :
    handleSaveOrderCreate env customers selectedCustomer items =
      SaveOrderResult.emptyActiveItems := by
  obtain ⟨customer, hcustf⟩ := hcust
  obtain ⟨pq, hmem, hq, product, hf⟩ := hex
  have hheld := hall pq hmem hq product hf
  have hpos := lineAggregate_heldCount_pos env items pq hmem hq product hf hheld
  have hguard : ¬ (selectedCustomer = "" ∨
      ((lineAggregate env items).inStockItems = 0 ∧
       (lineAggregate env items).heldItemsCount = 0)) := by
    rintro (h1 | ⟨h2, h3⟩)
    · exact hc h1
    · omega
  have hcid : ¬ customer.id = "" := by
    have hpred := List.find?_some hcustf
    have hceq : customer.id = selectedCustomer := by simpa using hpred
    rw [hceq]
    exact hc
  have hparts : (partitionSaveItems env items).1 = [] := by
    unfold partitionSaveItems
    apply partition_fold_fst
    intro pq2 hmem2 product2 hf2
    have hmem2' : pq2 ∈ items := List.mem_of_mem_filter hmem2
    have hq2 : 0 < pq2.2 := by
      have := List.of_mem_filter hmem2
      simpa using this
    exact hall pq2 hmem2' hq2 product2 hf2
  simp only [handleSaveOrderCreate, hcustf]
  rw [if_neg hguard]
  simp only [hparts, if_neg hcid]
  rfl

/-- Witness for C10: a single 3-unit line on a product with zero stock;
the initial guard accepts (held count 3) but the create-mode check
rejects. -/
theorem C10_backorderedOnlyOrderRejected_witness :
    handleSaveOrderCreate
        ⟨⟨UserRole.Admin, "U1", "2026-02-03"⟩, [], [⟨"P1", "Widget", 10, 0⟩], [], [], []⟩
        [⟨"C1", 0, 0⟩] "C1" [("P1", 3)] = SaveOrderResult.emptyActiveItems := by
  refine C10_backorderedOnlyOrderRejected _ _ _ _ (by decide)
    ⟨⟨"C1", 0, 0⟩, rfl⟩ ?_ ⟨("P1", 3), by simp, by decide, ⟨"P1", "Widget", 10, 0⟩, rfl⟩
  intro pq hmem hq product hf
  have hpq : pq = ("P1", 3) := by simpa using hmem
  subst hpq
  have hprod : product = ⟨"P1", "Widget", 10, 0⟩ := by
    have hf2 : List.find? (fun p => p.id == "P1") [(⟨"P1", "Widget", 10, 0⟩ : Product)] =
        some product := hf
    have h2 : List.find? (fun p => p.id == "P1") [(⟨"P1", "Widget", 10, 0⟩ : Product)] =
        some (⟨"P1", "Widget", 10, 0⟩ : Product) := rfl
    rw [h2] at hf2
    exact (Option.some.inj hf2).symm
  subst hprod
  right
  decide
